import Mathlib

/-!
Verification of the JSON tree-translation engine in `main.py`
(json-deepl-translate).

The development shallowly embeds the functions `iterate_translate`,
`translate_string` and `decode_text` of `main.py`.  A JSON value is a closed
tagged variant `Json`; Python dicts (as produced by `json.load`) are modelled
as ordered association lists with first-match lookup (real Python dicts are
insertion-ordered and duplicate-free, which the idempotence theorem assumes
via a `Nodup` hypothesis).  Python's `KeyError` (raised by `existing[key]`
when the key is absent) and `IndexError` (raised by `translations[0]` on an
empty list) are modelled as `Except.error`.  The external DeepL call
(`request.urlopen` of `DEEPL_API_ENDPOINT`) is modelled at its interface
boundary as a function from the request text to a response carrying a status
code and an optional parsed `translations` list; each live call is recorded
in an output list of the texts sent, so that theorems can count Translation
Service calls.  `time.sleep` and `print` have no observable effect on the
produced document and are not modelled.
-/

/-- A JSON document tree: objects (ordered key/value lists), arrays, strings,
numbers, booleans and null, mirroring the values `json.load` can return. -/
inductive Json where
  | obj  : List (String × Json) → Json
  | arr  : List Json → Json
  | str  : String → Json
  | num  : Int → Json
  | bool : Bool → Json
  | null : Json

/-- The parsed reply of one `request.urlopen` call in `translate_string`
(main.py lines 216-234), at the interface boundary of §6 of the spec:
an HTTP status and, when the body parses to an object containing a
`translations` array, the list of candidate texts. -/
structure ApiResp where
  status : Nat
  translations : Option (List String)

/-- The ambient state of one run of the translator: the `skip` and `keep`
argument lists, the `existing` output document loaded by
`get_strings_from_file`, the `GLOBAL_CACHE` dictionary, the `cache`
argument (`useCache` models `cache is not None`), and the external
translation service. -/
structure Config where
  skip : List String
  keep : List String
  existing : List (String × Json)
  globalCache : List (String × Json)
  useCache : Bool
  api : String → ApiResp

/-- Dictionary lookup: Python `d[key]` / `key in d` on a `json.load` dict,
modelled as first-match search in the association list. -/
def jlookup : List (String × Json) → String → Option Json
  | [], _ => none
  | (k, v) :: rest, key => if k = key then some v else jlookup rest key

/-- From main.py lines 240-241: `decode_text` is `str(text)`, the identity on a
string. -/
def decode_text (t : String) : String := t

/-- From main.py lines 180-237, `translate_string(text, target_locale, sleep,
cache)` for a `text` that is a `str`.  If `cache is not None` and `text` is a
key of `GLOBAL_CACHE`, the cached value is returned with no live call.
Otherwise one live call is made (recorded in the second component); a
non-200 status or a reply without a `translations` field returns the
original text; a reply whose `translations` list is empty raises
`IndexError` at `translations[0]`; otherwise the first candidate is decoded
and returned.  (The write `cache[text] = dec_text` at lines 235-236 is
commented out in the source, so the cache is never updated.) -/
def translate_string (cfg : Config) (text : String) : Except Unit (Json × List String) :=
  match (if cfg.useCache then jlookup cfg.globalCache text else none) with
  | some res => .ok (res, [])
  | none =>
    let resp := cfg.api text
    if resp.status ≠ 200 then .ok (.str text, [text])
    else
      match resp.translations with
      | none => .ok (.str text, [text])
      | some [] => .error ()
      | some (t :: _) => .ok (.str (decode_text t), [text])

/-- From main.py line 156, the value tests of the keep condition:
`existing[key] is not None and existing[key] != ""`.  Only the JSON values
`null` and the empty string fail these two comparisons in Python. -/
def keepValueOk : Json → Bool
  | .null => false
  | .str s => !(s == "")
  | _ => true

mutual

/-- From main.py lines 136-177, `iterate_translate(data, ...)`: dispatch on the
runtime type of `data`.  A dict is rebuilt entry by entry, a list element by
element; a string is returned unchanged when empty and otherwise given to
`translate_string`; bool/int/float are returned unchanged; any other value
(i.e. `None`) falls through every `isinstance` test and is returned as the
implicit `None`.  The second result component lists the texts of the live
Translation Service calls made, in order. -/
def iterate_translate (cfg : Config) : Json → Except Unit (Json × List String)
  | .obj entries =>
      match translateEntries cfg entries with
      | .error e => .error e
      | .ok (res, calls) => .ok (.obj res, calls)
  | .arr elems =>
      match translateElems cfg elems with
      | .error e => .error e
      | .ok (res, calls) => .ok (.arr res, calls)
  | .str s => if s = "" then .ok (.str s, []) else translate_string cfg s
  | .bool b => .ok (.bool b, [])
  | .num n => .ok (.num n, [])
  | .null => .ok (.null, [])
termination_by j => (sizeOf j, 0)

/-- The `for key, value in data.items()` loop of main.py lines 152-162:
each entry is processed by `entryStep` and the results are reassembled in
the original key order, concatenating the live-call lists. -/
def translateEntries (cfg : Config) :
    List (String × Json) → Except Unit (List (String × Json) × List String)
  | [] => .ok ([], [])
  | (k, v) :: rest =>
      match entryStep cfg k v with
      | .error e => .error e
      | .ok (r, c1) =>
        match translateEntries cfg rest with
        | .error e => .error e
        | .ok (rs, c2) => .ok ((k, r) :: rs, c1 ++ c2)
termination_by es => (sizeOf es, 3)

/-- The list comprehension of main.py line 166: every element is translated
in order. -/
def translateElems (cfg : Config) : List Json → Except Unit (List Json × List String)
  | [] => .ok ([], [])
  | v :: rest =>
      match iterate_translate cfg v with
      | .error e => .error e
      | .ok (r, c1) =>
        match translateElems cfg rest with
        | .error e => .error e
        | .ok (rs, c2) => .ok (r :: rs, c1 ++ c2)
termination_by es => (sizeOf es, 3)

/-- From main.py lines 153-161, the per-entry rule chain.  `if key in skip`
copies the value verbatim; `elif key in keep and existing and
existing[key] is not None and existing[key] != ""` evaluates left to right:
when `key` is in `keep` and `existing` is truthy (non-empty), the subscript
`existing[key]` is evaluated and raises `KeyError` when the key is absent;
when present and the value passes `keepValueOk`, that value is used.
Otherwise control reaches the cache test / recursive call. -/
def entryStep (cfg : Config) (k : String) (v : Json) : Except Unit (Json × List String) :=
  if k ∈ cfg.skip then .ok (v, [])
  else if k ∈ cfg.keep ∧ cfg.existing.isEmpty = false then
    match jlookup cfg.existing k with
    | none => .error ()
    | some ev =>
      if keepValueOk ev then .ok (ev, [])
      else cacheOrRecurse cfg k v
  else cacheOrRecurse cfg k v
termination_by (sizeOf v, 2)

/-- From main.py lines 158-161: `elif key in GLOBAL_CACHE:` uses the cached value
for this key (note: the key name, not the string content, and with no test
of the `cache` flag), and the final `else` recurses on the value. -/
def cacheOrRecurse (cfg : Config) (k : String) (v : Json) : Except Unit (Json × List String) :=
  match jlookup cfg.globalCache k with
  | some cv => .ok (cv, [])
  | none => iterate_translate cfg v
termination_by (sizeOf v, 1)

end

mutual

/-- The shape-preservation relation of §8 of the spec: same constructors
at every node, identical keys in identical order, identical array lengths
and order, identical numeric/boolean/null leaves; only the contents of
`String` leaves are unconstrained. -/
def sameShape : Json → Json → Bool
  | .obj e1, .obj e2 => sameShapeEntries e1 e2
  | .arr a1, .arr a2 => sameShapeElems a1 a2
  | .str _, .str _ => true
  | .num n, .num m => n == m
  | .bool a, .bool b => a == b
  | .null, .null => true
  | _, _ => false
termination_by j _ => (sizeOf j, 0)

/-- `sameShape` on object entry lists: equal length, equal keys pointwise,
values related by `sameShape`. -/
def sameShapeEntries : List (String × Json) → List (String × Json) → Bool
  | [], [] => true
  | (k1, v1) :: r1, (k2, v2) :: r2 => k1 == k2 && sameShape v1 v2 && sameShapeEntries r1 r2
  | _, _ => false
termination_by es _ => (sizeOf es, 1)

/-- `sameShape` on array element lists: equal length, elements related
pointwise. -/
def sameShapeElems : List Json → List Json → Bool
  | [], [] => true
  | v1 :: r1, v2 :: r2 => sameShape v1 v2 && sameShapeElems r1 r2
  | _, _ => false
termination_by es _ => (sizeOf es, 1)

end

mutual

theorem sameShape_refl : (j : Json) → sameShape j j = true
  | .obj es => by rw [sameShape]; exact sameShapeEntries_refl es
  | .arr es => by rw [sameShape]; exact sameShapeElems_refl es
  | .str s => by rw [sameShape]
  | .num n => by simp [sameShape]
  | .bool b => by simp [sameShape]
  | .null => by rw [sameShape]
termination_by j => (sizeOf j, 0)

theorem sameShapeEntries_refl : (es : List (String × Json)) → sameShapeEntries es es = true
  | [] => by rw [sameShapeEntries]
  | (k, v) :: rest => by
      rw [sameShapeEntries]
      simp [sameShape_refl v, sameShapeEntries_refl rest]
termination_by es => (sizeOf es, 1)

theorem sameShapeElems_refl : (es : List Json) → sameShapeElems es es = true
  | [] => by rw [sameShapeElems]
  | v :: rest => by
      rw [sameShapeElems]
      simp [sameShape_refl v, sameShapeElems_refl rest]
termination_by es => (sizeOf es, 1)

end

theorem translateEntries_keys (cfg : Config) (es : List (String × Json)) :
    ∀ res calls, translateEntries cfg es = .ok (res, calls) →
      res.map Prod.fst = es.map Prod.fst := by
  induction es with
  | nil =>
    intro res calls h
    rw [translateEntries] at h
    simp at h
    simp [h.1]
  | cons p rest ih =>
    obtain ⟨k, v⟩ := p
    intro res calls h
    rw [translateEntries] at h
    cases hstep : entryStep cfg k v with
    | error e => rw [hstep] at h; simp at h
    | ok rc =>
      obtain ⟨r, c1⟩ := rc
      rw [hstep] at h
      cases hrest : translateEntries cfg rest with
      | error e => rw [hrest] at h; simp at h
      | ok rsc =>
        obtain ⟨rs, c2⟩ := rsc
        rw [hrest] at h
        simp at h
        obtain ⟨hres, -⟩ := h
        subst hres
        simp [ih rs c2 hrest]

theorem lookup_translateEntries (cfg : Config) (es : List (String × Json)) :
    ∀ res calls k v, translateEntries cfg es = .ok (res, calls) →
      jlookup es k = some v →
      ∃ r c, entryStep cfg k v = .ok (r, c) ∧ jlookup res k = some r := by
  induction es with
  | nil => intro res calls k v h hl; rw [jlookup] at hl; simp at hl
  | cons p rest ih =>
    obtain ⟨k', v'⟩ := p
    intro res calls k v h hl
    rw [translateEntries] at h
    cases hstep : entryStep cfg k' v' with
    | error e => rw [hstep] at h; simp at h
    | ok rc =>
      obtain ⟨r, c1⟩ := rc
      rw [hstep] at h
      cases hrest : translateEntries cfg rest with
      | error e => rw [hrest] at h; simp at h
      | ok rsc =>
        obtain ⟨rs, c2⟩ := rsc
        rw [hrest] at h
        simp at h
        obtain ⟨hres, -⟩ := h
        subst hres
        rw [jlookup] at hl
        by_cases hkk : k' = k
        · subst hkk
          simp at hl
          subst hl
          exact ⟨r, c1, hstep, by rw [jlookup]; simp⟩
        · rw [if_neg hkk] at hl
          obtain ⟨r0, c0, hstep0, hlook0⟩ := ih rs c2 k v hrest hl
          exact ⟨r0, c0, hstep0, by rw [jlookup]; rw [if_neg hkk]; exact hlook0⟩

theorem translate_string_str (cfg : Config) (s : String)
    (hc : jlookup cfg.globalCache s = none) :
    ∀ r calls, translate_string cfg s = .ok (r, calls) → ∃ t, r = .str t := by
  intro r calls h
  rw [translate_string] at h
  rw [hc] at h
  simp only [ite_self] at h
  by_cases hs : (cfg.api s).status = 200
  · rw [if_neg (by simp [hs])] at h
    cases ht : (cfg.api s).translations with
    | none => rw [ht] at h; simp at h; exact ⟨s, h.1.symm⟩
    | some ts =>
      cases ts with
      | nil => rw [ht] at h; simp at h
      | cons t rest => rw [ht] at h; simp at h; exact ⟨decode_text t, h.1.symm⟩
  · rw [if_pos (by simp [hs])] at h
    simp at h
    exact ⟨s, h.1.symm⟩

mutual

theorem shape_iterate (cfg : Config) (hex : cfg.existing = []) (hgc : cfg.globalCache = []) :
    (j : Json) → ∀ out calls, iterate_translate cfg j = .ok (out, calls) →
      sameShape j out = true
  | .obj es => by
      intro out calls h
      rw [iterate_translate] at h
      cases hes : translateEntries cfg es with
      | error e => rw [hes] at h; simp at h
      | ok rc =>
        obtain ⟨res, cs⟩ := rc
        rw [hes] at h
        simp at h
        obtain ⟨ho, -⟩ := h
        subst ho
        rw [sameShape]
        exact shape_entries cfg hex hgc es res cs hes
  | .arr es => by
      intro out calls h
      rw [iterate_translate] at h
      cases hes : translateElems cfg es with
      | error e => rw [hes] at h; simp at h
      | ok rc =>
        obtain ⟨res, cs⟩ := rc
        rw [hes] at h
        simp at h
        obtain ⟨ho, -⟩ := h
        subst ho
        rw [sameShape]
        exact shape_elems cfg hex hgc es res cs hes
  | .str s => by
      intro out calls h
      rw [iterate_translate] at h
      by_cases hs : s = ""
      · rw [if_pos hs] at h
        simp at h
        obtain ⟨ho, -⟩ := h
        subst ho
        rw [sameShape]
      · rw [if_neg hs] at h
        obtain ⟨t, ht⟩ := translate_string_str cfg s (by rw [hgc]; rw [jlookup]) out calls h
        subst ht
        rw [sameShape]
  | .num n => by
      intro out calls h
      rw [iterate_translate] at h
      simp at h
      obtain ⟨ho, -⟩ := h
      subst ho
      simp [sameShape]
  | .bool b => by
      intro out calls h
      rw [iterate_translate] at h
      simp at h
      obtain ⟨ho, -⟩ := h
      subst ho
      simp [sameShape]
  | .null => by
      intro out calls h
      rw [iterate_translate] at h
      simp at h
      obtain ⟨ho, -⟩ := h
      subst ho
      rw [sameShape]
termination_by j => (sizeOf j, 0)

theorem shape_entries (cfg : Config) (hex : cfg.existing = []) (hgc : cfg.globalCache = []) :
    (es : List (String × Json)) → ∀ res calls, translateEntries cfg es = .ok (res, calls) →
      sameShapeEntries es res = true
  | [] => by
      intro res calls h
      rw [translateEntries] at h
      simp at h
      obtain ⟨ho, -⟩ := h
      subst ho
      rw [sameShapeEntries]
  | (k, v) :: rest => by
      intro res calls h
      rw [translateEntries] at h
      cases hstep : entryStep cfg k v with
      | error e => rw [hstep] at h; simp at h
      | ok rc =>
        obtain ⟨r, c1⟩ := rc
        rw [hstep] at h
        cases hrest : translateEntries cfg rest with
        | error e => rw [hrest] at h; simp at h
        | ok rsc =>
          obtain ⟨rs, c2⟩ := rsc
          rw [hrest] at h
          simp at h
          obtain ⟨ho, -⟩ := h
          subst ho
          rw [sameShapeEntries]
          simp [shape_entry cfg hex hgc k v r c1 hstep,
            shape_entries cfg hex hgc rest rs c2 hrest]
termination_by es => (sizeOf es, 3)

theorem shape_elems (cfg : Config) (hex : cfg.existing = []) (hgc : cfg.globalCache = []) :
    (es : List Json) → ∀ res calls, translateElems cfg es = .ok (res, calls) →
      sameShapeElems es res = true
  | [] => by
      intro res calls h
      rw [translateElems] at h
      simp at h
      obtain ⟨ho, -⟩ := h
      subst ho
      rw [sameShapeElems]
  | v :: rest => by
      intro res calls h
      rw [translateElems] at h
      cases hstep : iterate_translate cfg v with
      | error e => rw [hstep] at h; simp at h
      | ok rc =>
        obtain ⟨r, c1⟩ := rc
        rw [hstep] at h
        cases hrest : translateElems cfg rest with
        | error e => rw [hrest] at h; simp at h
        | ok rsc =>
          obtain ⟨rs, c2⟩ := rsc
          rw [hrest] at h
          simp at h
          obtain ⟨ho, -⟩ := h
          subst ho
          rw [sameShapeElems]
          simp [shape_iterate cfg hex hgc v r c1 hstep,
            shape_elems cfg hex hgc rest rs c2 hrest]
termination_by es => (sizeOf es, 3)

theorem shape_entry (cfg : Config) (hex : cfg.existing = []) (hgc : cfg.globalCache = []) :
    (k : String) → (v : Json) → ∀ r c, entryStep cfg k v = .ok (r, c) →
      sameShape v r = true
  | k, v => by
      intro r c h
      rw [entryStep] at h
      rw [hex] at h
      simp only [List.isEmpty_nil, Bool.true_eq_false, and_false, if_false] at h
      by_cases hsk : k ∈ cfg.skip
      · rw [if_pos hsk] at h
        simp at h
        obtain ⟨ho, -⟩ := h
        subst ho
        exact sameShape_refl v
      · rw [if_neg hsk] at h
        exact shape_cor cfg hex hgc k v r c h
termination_by k v => (sizeOf v, 2)

theorem shape_cor (cfg : Config) (hex : cfg.existing = []) (hgc : cfg.globalCache = []) :
    (k : String) → (v : Json) → ∀ r c, cacheOrRecurse cfg k v = .ok (r, c) →
      sameShape v r = true
  | k, v => by
      intro r c h
      rw [cacheOrRecurse] at h
      rw [hgc] at h
      rw [jlookup] at h
      exact shape_iterate cfg hex hgc v r c h
termination_by k v => (sizeOf v, 1)

end

theorem entryStep_skip (cfg : Config) (k : String) (v : Json) (hk : k ∈ cfg.skip) :
    entryStep cfg k v = .ok (v, []) := by
  rw [entryStep, if_pos hk]

theorem jlookup_isEmpty_false (l : List (String × Json)) (k : String) (v : Json)
    (h : jlookup l k = some v) : l.isEmpty = false := by
  cases l with
  | nil => rw [jlookup] at h; simp at h
  | cons a b => rfl

theorem keepValueOk_of_ne (ev : Json) (hnn : ev ≠ Json.null) (hne : ev ≠ Json.str "") :
    keepValueOk ev = true := by
  cases ev with
  | null => exact absurd rfl hnn
  | str s =>
    rw [keepValueOk]
    simp only [Bool.not_eq_true']
    simp only [beq_eq_false_iff_ne, ne_eq]
    intro hs
    exact hne (by rw [hs])
  | obj es => rfl
  | arr es => rfl
  | num n => rfl
  | bool b => rfl

theorem entryStep_keep (cfg : Config) (k : String) (v ev : Json)
    (hns : k ∉ cfg.skip) (hk : k ∈ cfg.keep)
    (he : jlookup cfg.existing k = some ev) (hnn : ev ≠ Json.null) (hne : ev ≠ Json.str "") :
    entryStep cfg k v = .ok (ev, []) := by
  rw [entryStep, if_neg hns,
    if_pos ⟨hk, jlookup_isEmpty_false cfg.existing k ev he⟩]
  simp only [he]
  rw [if_pos (keepValueOk_of_ne ev hnn hne)]

theorem iterate_translate_obj_ok (cfg : Config) (entries res : List (String × Json))
    (calls : List String)
    (h : iterate_translate cfg (Json.obj entries) = .ok (Json.obj res, calls)) :
    translateEntries cfg entries = .ok (res, calls) := by
  rw [iterate_translate] at h
  cases hes : translateEntries cfg entries with
  | error e => rw [hes] at h; simp at h
  | ok rc =>
    obtain ⟨res', cs⟩ := rc
    rw [hes] at h
    simp at h
    obtain ⟨hr, hc⟩ := h
    rw [hr, hc]

/-- Claim C2: for every non-empty input string whose text is not in the
process cache, when the Translation Service replies with a non-200 status
or with a body lacking a `translations` field, `translate_string` returns
the original text (after one recorded live call), and the string case of
`iterate_translate` returns that same `ok` result, so tree traversal
continues instead of aborting. -/
theorem leaf_failure_passthrough (cfg : Config) (text : String) (ht : text ≠ "")
    (hc : jlookup cfg.globalCache text = none)
    (hf : (cfg.api text).status ≠ 200 ∨ (cfg.api text).translations = none) :
    translate_string cfg text = .ok (.str text, [text]) ∧
    iterate_translate cfg (.str text) = .ok (.str text, [text]) := by
  have h1 : translate_string cfg text = .ok (.str text, [text]) := by
    rw [translate_string, hc]
    simp only [ite_self]
    by_cases hs : (cfg.api text).status = 200
    · have hf' : (cfg.api text).translations = none := by
        rcases hf with hf | hf
        · exact absurd hs hf
        · exact hf
      rw [if_neg (by simp [hs]), hf']
    · rw [if_pos hs]
  exact ⟨h1, by rw [iterate_translate, if_neg ht]; exact h1⟩

theorem leaf_failure_witness :
    translate_string ⟨[], [], [], [], true, fun _ => ⟨500, none⟩⟩ "Hello" =
      .ok (.str "Hello", ["Hello"]) ∧
    iterate_translate ⟨[], [], [], [], true, fun _ => ⟨500, none⟩⟩ (.str "Hello") =
      .ok (.str "Hello", ["Hello"]) :=
  leaf_failure_passthrough ⟨[], [], [], [], true, fun _ => ⟨500, none⟩⟩ "Hello"
    (by simp) (by rw [jlookup]) (Or.inl (by simp))

/-- Claim C3: the claim says that with a non-empty existing output document
that has no entry at a keep key, `iterate_translate` does not fail.  The
code instead evaluates `existing[key]` and raises `KeyError`: on input
`{"name": "World"}` with `keep = ["name"]` and existing document
`{"other": "x"}`, the run aborts. -/
theorem keep_missing_key_keyerror :
    iterate_translate
        ⟨[], ["name"], [("other", Json.str "x")], [], true, fun _ => ⟨200, some ["Hola"]⟩⟩
        (Json.obj [("name", Json.str "World")]) = .error () := by
  simp [iterate_translate, translateEntries, entryStep, jlookup]

/-- Claim C5: if key `k` is in `skip`, the per-entry rule returns the input
value verbatim with no live call, and in any successful translation of an
object containing `k` the output at `k` equals the input at `k`, whatever
the keep list, cache contents and existing document are. -/
theorem skip_precedence (cfg : Config) (entries res : List (String × Json))
    (calls : List String) (k : String) (v : Json)
    (hk : k ∈ cfg.skip) (hv : jlookup entries k = some v) :
    entryStep cfg k v = .ok (v, []) ∧
    (iterate_translate cfg (Json.obj entries) = .ok (Json.obj res, calls) →
      jlookup res k = some v) := by
  refine ⟨entryStep_skip cfg k v hk, fun h => ?_⟩
  have hes := iterate_translate_obj_ok cfg entries res calls h
  obtain ⟨r, c, hstep, hlook⟩ := lookup_translateEntries cfg entries res calls k v hes hv
  rw [entryStep_skip cfg k v hk] at hstep
  simp at hstep
  rw [hstep.1]
  exact hlook

theorem skip_precedence_witness :
    entryStep ⟨["secret_code"], [], [], [], true, fun _ => ⟨200, some ["Hola"]⟩⟩
        "secret_code" (Json.str "XJ-42") = .ok (Json.str "XJ-42", []) ∧
    (iterate_translate ⟨["secret_code"], [], [], [], true, fun _ => ⟨200, some ["Hola"]⟩⟩
        (Json.obj [("secret_code", Json.str "XJ-42")]) =
        .ok (Json.obj [("secret_code", Json.str "XJ-42")], []) →
      jlookup [("secret_code", Json.str "XJ-42")] "secret_code" =
        some (Json.str "XJ-42")) :=
  skip_precedence ⟨["secret_code"], [], [], [], true, fun _ => ⟨200, some ["Hola"]⟩⟩
    [("secret_code", Json.str "XJ-42")] [("secret_code", Json.str "XJ-42")] []
    "secret_code" (Json.str "XJ-42") (by simp) (by rw [jlookup]; simp)

/-- Claim C6: if `k` is in `keep` and not in `skip` and the existing output
document has a non-null, non-empty value `ev` at `k`, then the per-entry
rule returns `ev` with no live call, and in any successful translation of
an object containing `k` the output at `k` is `ev`. -/
theorem keep_precedence (cfg : Config) (entries res : List (String × Json))
    (calls : List String) (k : String) (v ev : Json)
    (hns : k ∉ cfg.skip) (hk : k ∈ cfg.keep)
    (he : jlookup cfg.existing k = some ev) (hnn : ev ≠ Json.null)
    (hne : ev ≠ Json.str "") (hv : jlookup entries k = some v) :
    entryStep cfg k v = .ok (ev, []) ∧
    (iterate_translate cfg (Json.obj entries) = .ok (Json.obj res, calls) →
      jlookup res k = some ev) := by
  refine ⟨entryStep_keep cfg k v ev hns hk he hnn hne, fun h => ?_⟩
  have hes := iterate_translate_obj_ok cfg entries res calls h
  obtain ⟨r, c, hstep, hlook⟩ := lookup_translateEntries cfg entries res calls k v hes hv
  rw [entryStep_keep cfg k v ev hns hk he hnn hne] at hstep
  simp at hstep
  rw [hstep.1]
  exact hlook

theorem keep_precedence_witness :
    entryStep ⟨[], ["name"], [("name", Json.str "Mundo")], [], true, fun _ => ⟨200, some ["X"]⟩⟩
        "name" (Json.str "World") = .ok (Json.str "Mundo", []) ∧
    (iterate_translate ⟨[], ["name"], [("name", Json.str "Mundo")], [], true, fun _ => ⟨200, some ["X"]⟩⟩
        (Json.obj [("name", Json.str "World")]) =
        .ok (Json.obj [("name", Json.str "Mundo")], []) →
      jlookup [("name", Json.str "Mundo")] "name" = some (Json.str "Mundo")) :=
  keep_precedence ⟨[], ["name"], [("name", Json.str "Mundo")], [], true, fun _ => ⟨200, some ["X"]⟩⟩
    [("name", Json.str "World")] [("name", Json.str "Mundo")] []
    "name" (Json.str "World") (Json.str "Mundo")
    (by simp) (by simp) (by rw [jlookup]; simp) (by simp) (by simp)
    (by rw [jlookup]; simp)

/-- Claim C8: translating the empty string returns the empty string with an
empty live-call list: the Translation Client is never invoked. -/
theorem empty_string_identity (cfg : Config) :
    iterate_translate cfg (Json.str "") = .ok (Json.str "", []) := by
  rw [iterate_translate]
  simp

/-- Claim C9: numbers, booleans and null are returned unchanged with no
live call; null is handled by the fall-through of the type dispatch rather
than by a crash. -/
theorem nonstring_passthrough (cfg : Config) (n : Int) (b : Bool) :
    iterate_translate cfg (Json.num n) = .ok (Json.num n, []) ∧
    iterate_translate cfg (Json.bool b) = .ok (Json.bool b, []) ∧
    iterate_translate cfg Json.null = .ok (Json.null, []) := by
  refine ⟨?_, ?_, ?_⟩ <;> rw [iterate_translate]

/-- Claim C1, counterexample: shape preservation does not hold for
arbitrary process-cache contents.  With the cache holding key "a", the
key-level cache rule replaces the number 5 by the cached string, so a
non-string leaf changes and the claimed invariant is false at this input. -/
theorem shape_preservation_counterexample :
    iterate_translate
        ⟨[], [], [], [("a", Json.str "cached")], true, fun _ => ⟨200, some ["Hola"]⟩⟩
        (Json.obj [("a", Json.num 5)]) =
      .ok (Json.obj [("a", Json.str "cached")], []) ∧
    sameShape (Json.obj [("a", Json.num 5)]) (Json.obj [("a", Json.str "cached")]) = false := by
  constructor
  · simp [iterate_translate, translateEntries, entryStep, cacheOrRecurse, jlookup]
  · simp [sameShape, sameShapeEntries]

/-- Claim C1 (amended): when the process cache is empty and the existing
output document is empty (so neither the key-level cache rule nor the keep
rule can substitute a foreign subtree), every successful run of
`iterate_translate` returns a tree of identical shape: identical key sets
in order, identical array lengths and order, identical non-string leaves;
only String leaf values may differ. -/
theorem shape_preservation_amended (cfg : Config) (hex : cfg.existing = [])
    (hgc : cfg.globalCache = []) (j out : Json) (calls : List String)
    (h : iterate_translate cfg j = .ok (out, calls)) : sameShape j out = true :=
  shape_iterate cfg hex hgc j out calls h

theorem shape_preservation_witness :
    sameShape
      (Json.obj [("greeting", Json.str "Hello"), ("count", Json.num 3), ("flag", Json.bool true)])
      (Json.obj [("greeting", Json.str "Hola"), ("count", Json.num 3), ("flag", Json.bool true)]) =
      true :=
  shape_preservation_amended ⟨[], [], [], [], true, fun _ => ⟨200, some ["Hola"]⟩⟩ rfl rfl
    (Json.obj [("greeting", Json.str "Hello"), ("count", Json.num 3), ("flag", Json.bool true)])
    (Json.obj [("greeting", Json.str "Hola"), ("count", Json.num 3), ("flag", Json.bool true)])
    ["Hello"]
    (by simp [iterate_translate, translateEntries, entryStep, cacheOrRecurse,
      translate_string, jlookup, decode_text])

/-- Claim C4, counterexample: within a single run the process cache is
never updated (the write in `translate_string` is commented out), so the
same source string occurring under two keys is sent to the Translation
Service twice: the recorded live-call list repeats "Hello", refuting
"at most one live call per distinct source string per run". -/
theorem single_run_duplicate_calls :
    iterate_translate ⟨[], [], [], [], true, fun _ => ⟨200, some ["Hola"]⟩⟩
        (Json.obj [("a", Json.str "Hello"), ("b", Json.str "Hello")]) =
      .ok (Json.obj [("a", Json.str "Hola"), ("b", Json.str "Hola")], ["Hello", "Hello"]) ∧
    ¬ (["Hello", "Hello"] : List String).Nodup := by
  constructor
  · simp [iterate_translate, translateEntries, entryStep, cacheOrRecurse,
      translate_string, jlookup, decode_text]
  · simp

theorem warmEntries (cfg : Config) (hkeep : cfg.keep = []) :
    ∀ entries : List (String × Json),
      (∀ p ∈ entries, (jlookup cfg.globalCache p.1).isSome = true) →
      ∃ res, translateEntries cfg entries = .ok (res, []) := by
  intro entries
  induction entries with
  | nil => exact fun _ => ⟨[], by rw [translateEntries]⟩
  | cons p rest ih =>
    obtain ⟨k, v⟩ := p
    intro hall
    have hk := hall (k, v) (List.mem_cons_self _ _)
    obtain ⟨cv, hcv⟩ : ∃ cv, jlookup cfg.globalCache k = some cv := by
      cases hx : jlookup cfg.globalCache k with
      | none => rw [hx] at hk; simp at hk
      | some cv => exact ⟨cv, rfl⟩
    have hstep : ∃ r, entryStep cfg k v = .ok (r, []) := by
      by_cases hsk : k ∈ cfg.skip
      · exact ⟨v, entryStep_skip cfg k v hsk⟩
      · refine ⟨cv, ?_⟩
        rw [entryStep, if_neg hsk, if_neg (by rw [hkeep]; simp),
          cacheOrRecurse, hcv]
    obtain ⟨r, hr⟩ := hstep
    obtain ⟨rs, hrs⟩ := ih (fun p hp => hall p (List.mem_cons_of_mem _ hp))
    refine ⟨(k, r) :: rs, ?_⟩
    rw [translateEntries, hr, hrs]
    rfl

/-- Claim C4 (amended): the cache-reuse half of the claim holds at the key
level: on a run whose process cache contains every top-level key of the
source object (as a warm cache seeded from a previous run's persisted
output does) and whose keep list is empty, `iterate_translate` performs
zero live Translation Service calls.  The per-distinct-string half is
false (see the counterexample): the cache is never written during a run,
so each cache-missing occurrence of a string incurs its own live call. -/
theorem warm_cache_no_calls (cfg : Config) (entries : List (String × Json))
    (hkeep : cfg.keep = [])
    (hwarm : ∀ p ∈ entries, (jlookup cfg.globalCache p.1).isSome = true) :
    ∃ res, iterate_translate cfg (Json.obj entries) = .ok (Json.obj res, []) := by
  obtain ⟨res, hres⟩ := warmEntries cfg hkeep entries hwarm
  exact ⟨res, by rw [iterate_translate, hres]⟩

theorem warm_cache_witness :
    ∃ res, iterate_translate
        ⟨[], [], [], [("greeting", Json.str "Hola")], true, fun _ => ⟨200, some ["X"]⟩⟩
        (Json.obj [("greeting", Json.str "Hello")]) = .ok (Json.obj res, []) :=
  warm_cache_no_calls
    ⟨[], [], [], [("greeting", Json.str "Hola")], true, fun _ => ⟨200, some ["X"]⟩⟩
    [("greeting", Json.str "Hello")] rfl
    (by intro p hp; simp at hp; rw [hp]; rw [jlookup]; simp)

theorem rerunEntries (cfg : Config) (full : List (String × Json))
    (hskip : cfg.skip = []) (hex : cfg.existing = full) (hgc : cfg.globalCache = full) :
    ∀ es os : List (String × Json),
      (∀ k ∈ es.map Prod.fst, k ∈ cfg.keep) →
      es.map Prod.fst = os.map Prod.fst →
      (es.map Prod.fst).Nodup →
      (∀ k ∈ es.map Prod.fst, jlookup full k = jlookup os k) →
      translateEntries cfg es = .ok (os, []) := by
  intro es
  induction es with
  | nil =>
    intro os _ hkeys _ _
    cases os with
    | nil => rw [translateEntries]
    | cons a b => simp at hkeys
  | cons p rest ih =>
    obtain ⟨k, v⟩ := p
    intro os hkeep hkeys hnd hagree
    cases os with
    | nil => simp at hkeys
    | cons q orest =>
      obtain ⟨k2, w⟩ := q
      simp only [List.map_cons, List.cons.injEq] at hkeys
      obtain ⟨hk2, hrestkeys⟩ := hkeys
      subst hk2
      have hwk : jlookup full k = some w := by
        rw [hagree k (by simp), jlookup, if_pos rfl]
      have hstep : entryStep cfg k v = .ok (w, []) := by
        rw [entryStep, if_neg (by rw [hskip]; simp),
          if_pos ⟨hkeep k (by simp), by rw [hex]; exact jlookup_isEmpty_false full k w hwk⟩,
          hex]
        simp only [hwk]
        by_cases hko : keepValueOk w
        · rw [if_pos hko]
        · rw [if_neg hko, cacheOrRecurse, hgc, hwk]
      have hrest : translateEntries cfg rest = .ok (orest, []) := by
        apply ih orest
        · intro k' hk'
          exact hkeep k' (List.mem_cons_of_mem _ hk')
        · exact hrestkeys
        · exact (List.nodup_cons.mp hnd).2
        · intro k' hk'
          have hne : ¬ (k = k') := by
            intro he
            exact (List.nodup_cons.mp hnd).1 (he ▸ hk')
          rw [hagree k' (List.mem_cons_of_mem _ hk'), jlookup, if_neg hne]
      rw [translateEntries, hstep, hrest]
      rfl

/-- Claim C7: if a first run on an object with duplicate-free keys succeeds
with output `out1`, then a second run on the same input whose keep list is
all top-level keys, whose existing output document is `out1`, and whose
process cache is seeded from the persisted mirror of `out1`, returns `out1`
itself (hence a byte-identical serialized file) and makes zero live calls. -/
theorem idempotent_rerun (cfg1 : Config) (api2 : String → ApiResp)
    (entries out1 : List (String × Json)) (c1 : List String)
    (hrun1 : iterate_translate cfg1 (Json.obj entries) = .ok (Json.obj out1, c1))
    (hnd : (entries.map Prod.fst).Nodup) :
    iterate_translate ⟨[], entries.map Prod.fst, out1, out1, true, api2⟩ (Json.obj entries) =
      .ok (Json.obj out1, []) := by
  have hes := iterate_translate_obj_ok cfg1 entries out1 c1 hrun1
  have hkeys := translateEntries_keys cfg1 entries out1 c1 hes
  have h2 := rerunEntries ⟨[], entries.map Prod.fst, out1, out1, true, api2⟩ out1 rfl rfl rfl
    entries out1 (fun k hk => hk) hkeys.symm hnd (fun k _ => rfl)
  rw [iterate_translate, h2]

theorem idempotent_rerun_witness :
    iterate_translate
        ⟨[], List.map Prod.fst [("name", Json.str "World")],
          [("name", Json.str "Mundo")], [("name", Json.str "Mundo")], true,
          fun _ => ⟨200, some ["Mundo"]⟩⟩
        (Json.obj [("name", Json.str "World")]) =
      .ok (Json.obj [("name", Json.str "Mundo")], []) :=
  idempotent_rerun ⟨[], [], [], [], true, fun _ => ⟨200, some ["Mundo"]⟩⟩
    (fun _ => ⟨200, some ["Mundo"]⟩)
    [("name", Json.str "World")] [("name", Json.str "Mundo")] ["World"]
    (by simp [iterate_translate, translateEntries, entryStep, cacheOrRecurse,
      translate_string, jlookup, decode_text]) (by simp)

/-- Claim C10: the existing output document is passed unchanged into every
recursive call, so a keep key `k` nested inside an inner object is resolved
against the top level of the existing document: whenever the root-level
lookup `jlookup cfg.existing k` yields a non-null, non-empty `ev`, the
translated inner object carries `ev` at `k`, wherever the inner object sits. -/
theorem nested_keep_uses_root (cfg : Config)
    (outerEntries innerEntries res : List (String × Json)) (calls : List String)
    (outerK k : String) (v ev : Json)
    (ho1 : outerK ∉ cfg.skip) (ho2 : outerK ∉ cfg.keep)
    (ho3 : jlookup cfg.globalCache outerK = none)
    (hout : jlookup outerEntries outerK = some (Json.obj innerEntries))
    (hk1 : k ∉ cfg.skip) (hk2 : k ∈ cfg.keep)
    (hin : jlookup innerEntries k = some v)
    (hev : jlookup cfg.existing k = some ev) (hnn : ev ≠ Json.null) (hne : ev ≠ Json.str "")
    (hrun : iterate_translate cfg (Json.obj outerEntries) = .ok (Json.obj res, calls)) :
    ∃ innerRes : List (String × Json),
      jlookup res outerK = some (Json.obj innerRes) ∧ jlookup innerRes k = some ev := by
  have hes := iterate_translate_obj_ok cfg outerEntries res calls hrun
  obtain ⟨r, c, hstep, hlook⟩ :=
    lookup_translateEntries cfg outerEntries res calls outerK (Json.obj innerEntries) hes hout
  rw [entryStep, if_neg ho1, if_neg (fun hand => ho2 hand.1), cacheOrRecurse, ho3,
    iterate_translate] at hstep
  cases hinner : translateEntries cfg innerEntries with
  | error e => rw [hinner] at hstep; simp at hstep
  | ok rc =>
    obtain ⟨innerRes, c2⟩ := rc
    rw [hinner] at hstep
    simp at hstep
    obtain ⟨hr, -⟩ := hstep
    obtain ⟨r2, c3, hstep2, hlook2⟩ :=
      lookup_translateEntries cfg innerEntries innerRes c2 k v hinner hin
    rw [entryStep_keep cfg k v ev hk1 hk2 hev hnn hne] at hstep2
    simp at hstep2
    refine ⟨innerRes, ?_, ?_⟩
    · rw [← hr] at hlook
      exact hlook
    · rw [hstep2.1]
      exact hlook2

theorem nested_keep_witness :
    ∃ innerRes : List (String × Json),
      jlookup [("outer", Json.obj [("name", Json.str "Mundo")])] "outer" =
        some (Json.obj innerRes) ∧
      jlookup innerRes "name" = some (Json.str "Mundo") :=
  nested_keep_uses_root
    ⟨[], ["name"], [("name", Json.str "Mundo")], [], true, fun _ => ⟨200, some ["X"]⟩⟩
    [("outer", Json.obj [("name", Json.str "World")])]
    [("name", Json.str "World")]
    [("outer", Json.obj [("name", Json.str "Mundo")])] []
    "outer" "name" (Json.str "World") (Json.str "Mundo")
    (by simp) (by simp) (by rw [jlookup]) (by rw [jlookup]; simp)
    (by simp) (by simp) (by rw [jlookup]; simp) (by rw [jlookup]; simp)
    (by simp) (by simp)
    (by simp [iterate_translate, translateEntries, entryStep, cacheOrRecurse,
      translate_string, jlookup, decode_text, keepValueOk])
